import Mathlib

set_option maxRecDepth 100000

/-!
Verification development for the HLK-LD6002 radar toolkit core:
the XMODEM-CRC transfer engine (utils/xmodem_send.py) and the flash-image
decoder (utils/flash-split.py).

The serial transport is modelled as a deterministic trace of polls: each
element of the trace is the result of one read attempt of the underlying
port (some b = a byte arrived, none = no byte during that poll), and one
poll stands for one unit of wall-clock time.  Timeouts measured in seconds
in the source become poll counts here.  Bytes written to the port are
accumulated in a list.
-/

/-- Control byte SOH (start of 128-byte data packet). -/
def SOH : Nat := 0x01

/-- Control byte EOT (end of transmission). -/
def EOT : Nat := 0x04

/-- Control byte ACK (acknowledge). -/
def ACK : Nat := 0x06

/-- Control byte NAK (not acknowledge). -/
def NAK : Nat := 0x15

/-- Control byte CAN (cancel). -/
def CAN : Nat := 0x18

/-- The byte 0x43, ASCII letter C, requesting CRC mode. -/
def CHAR_C : Nat := 0x43

/-- Standard XMODEM block size. -/
def BLOCK_SIZE : Nat := 128

/-- Pad byte used when the file is shorter than a whole block. -/
def PAD_BYTE : Nat := 0x1A

/-- One shift-and-conditionally-xor round of the CRC inner loop, from
crc16_ccitt in utils/xmodem_send.py (poly 0x1021 inlined). -/
def crc_round (crc : Nat) : Nat :=
  if crc &&& 0x8000 ≠ 0 then ((crc <<< 1) &&& 0xFFFF) ^^^ 0x1021
  else (crc <<< 1) &&& 0xFFFF

/-- Iterated CRC rounds (the inner for-loop over 8 bit positions). -/
def crc_rounds : Nat → Nat → Nat
  | 0, crc => crc
  | n + 1, crc => crc_rounds n (crc_round crc)

/-- CRC-16/CCITT as implemented by crc16_ccitt in utils/xmodem_send.py:
initial value 0x0000, per byte xor into the high half then 8 rounds. -/
def crc16_ccitt (data : List Nat) : Nat :=
  (data.foldl (fun crc b => crc_rounds 8 (crc ^^^ (b <<< 8))) 0x0000) &&& 0xFFFF

/-- Serial port state: the remaining poll trace and the bytes written so far. -/
structure Ser where
  trace : List (Option Nat)
  written : List Nat
deriving DecidableEq

/-- Model of read_with_timeout: poll up to the given number of times,
returning the first byte that arrives (consuming the polls used) or none
when the window elapses with no byte. -/
def read_with_timeout : List (Option Nat) → Nat → Option Nat × List (Option Nat)
  | tr, 0 => (none, tr)
  | [], _ + 1 => (none, [])
  | none :: tr, t + 1 => read_with_timeout tr t
  | some b :: tr, _ + 1 => (some b, tr)

/-- The scanning loop inside wait_for_receiver_crc_request: having already
received byte b, keep checking for the letter C within a window of fuel
polls (the source sets end = time.time() + timeout after the first byte
arrives).  Bytes other than C are discarded without resetting the window. -/
def scan_for_crc_request (b : Nat) (tr : List (Option Nat)) (fuel : Nat) :
    Bool × List (Option Nat) :=
  if b = CHAR_C then (true, tr)
  else
    match fuel, tr with
    | 0, rest => (false, rest)
    | f + 1, [] => scan_for_crc_request b [] f
    | f + 1, none :: rest => scan_for_crc_request b rest f
    | f + 1, some nb :: rest => scan_for_crc_request nb rest f

/-- Model of wait_for_receiver_crc_request: one read_with_timeout for the
first byte, then the scanning loop with a freshly opened window. -/
def wait_for_receiver_crc_request (tr : List (Option Nat)) (timeout : Nat) :
    Bool × List (Option Nat) :=
  match read_with_timeout tr timeout with
  | (none, tr1) => (false, tr1)
  | (some b, tr1) => scan_for_crc_request b tr1 timeout

/-- Pad a chunk shorter than BLOCK_SIZE with PAD_BYTE, as at the top of
send_block in utils/xmodem_send.py. -/
def xpad (chunk : List Nat) : List Nat :=
  if chunk.length < BLOCK_SIZE then
    chunk ++ List.replicate (BLOCK_SIZE - chunk.length) PAD_BYTE
  else chunk

/-- The 132-byte packet built by send_block: SOH, block number and its
complement, the padded payload, then the CRC of the padded payload,
high byte first. -/
def mkPacket (block_no : Nat) (chunk : List Nat) : List Nat :=
  let c := xpad chunk
  let crc := crc16_ccitt c
  [SOH, block_no &&& 0xFF, 0xFF - (block_no &&& 0xFF)] ++ c ++
    [(crc >>> 8) &&& 0xFF, crc &&& 0xFF]

/-- Error raised by send_block when the chunk exceeds BLOCK_SIZE
(the ValueError in the source). -/
inductive EncodeError
  | chunkTooLarge
deriving DecidableEq

/-- Packet encoding including the caller-contract check: a chunk larger
than 128 bytes yields an error instead of a packet. -/
def encode (block_no : Nat) (chunk : List Nat) : Except EncodeError (List Nat) :=
  if chunk.length > BLOCK_SIZE then .error .chunkTooLarge
  else .ok (mkPacket block_no chunk)

/-- Result of one send_block call: ACKed, failed (NAK or timeout, both
return False in the source), or cancelled (the RuntimeError raised on CAN). -/
inductive BlockResult
  | acked
  | failed
  | cancelled
deriving DecidableEq

/-- The reply-wait loop at the bottom of send_block: read_with_timeout in a
loop; ACK, NAK and CAN are decisive, any other byte is ignored and the
per-try window reopens (so w is the remaining budget of the current window
and t the full window used after a noise byte). -/
def await_reply (t : Nat) : List (Option Nat) → Nat → BlockResult × List (Option Nat)
  | tr, 0 => (.failed, tr)
  | [], _ + 1 => (.failed, [])
  | none :: tr, w + 1 => await_reply t tr w
  | some b :: tr, _ + 1 =>
    if b = ACK then (.acked, tr)
    else if b = NAK then (.failed, tr)
    else if b = CAN then (.cancelled, tr)
    else await_reply t tr t

/-- Model of send_block: write the packet, then wait for the reply. -/
def send_block (pt block_no : Nat) (chunk : List Nat) (s : Ser) : BlockResult × Ser :=
  let pkt := mkPacket block_no chunk
  let r := await_reply pt s.trace pt
  (r.1, ⟨r.2, s.written ++ pkt⟩)

/-- Result of the per-block retry loop inside xmodem_crc_send. -/
inductive TryResult
  | ok
  | canceled
  | exceeded
deriving DecidableEq

/-- Dispatch on one send_block outcome inside the retry loop: an ACK breaks
the loop with success, the CAN exception propagates as cancellation, and a
failure (NAK or timeout) continues with the given handler. -/
def try_resolve (res : BlockResult × Ser) (onFail : Ser → TryResult × Ser) :
    TryResult × Ser :=
  match res with
  | (.acked, s2) => (.ok, s2)
  | (.cancelled, s2) => (.canceled, s2)
  | (.failed, s2) => onFail s2

/-- The per-block retry loop of xmodem_crc_send: resend the identical block
on failure; n is the number of retries still allowed, so the block is sent
at most n + 1 times (initial call passes max_retries, and the failure
after the last allowed attempt is the retries-exceeded outcome). -/
def try_send (pt block_no : Nat) (chunk : List Nat) : Nat → Ser → TryResult × Ser
  | 0, s => try_resolve (send_block pt block_no chunk s) (fun s2 => (.exceeded, s2))
  | m + 1, s => try_resolve (send_block pt block_no chunk s)
      (fun s2 => try_send pt block_no chunk m s2)

/-- Terminal outcome of one engine run.  The source signals these as
distinct stderr messages plus a boolean: done is the True return, the
others are the distinct failure paths of xmodem_crc_send. -/
inductive Outcome
  | done
  | cancelled
  | noHandshake
  | retriesExceeded (block_no : Nat)
  | eotNotAcked
deriving DecidableEq

/-- Dispatch on one per-block outcome inside the send loop: success advances
to the next block, cancellation and exhausted retries abort the run with
the corresponding outcome. -/
def loop_resolve (res : TryResult × Ser) (block_no : Nat)
    (onOk : Ser → Option Outcome × Ser) : Option Outcome × Ser :=
  match res with
  | (.ok, s2) => onOk s2
  | (.canceled, s2) => (some .cancelled, s2)
  | (.exceeded, s2) => (some (.retriesExceeded block_no), s2)

/-- The while sent < total loop of xmodem_crc_send, with the remaining data
passed explicitly (chunk = data[sent : sent + 128]).  The fuel argument is
an upper bound on the number of iterations; the engine passes the data
length, which always suffices since every iteration consumes at least one
byte of data. -/
def send_loop (pt mr : Nat) : Nat → List Nat → Nat → Ser → Option Outcome × Ser
  | 0, _, _, s => (none, s)
  | _ + 1, [], _, s => (none, s)
  | fuel + 1, d :: ds, block_no, s =>
    loop_resolve (try_send pt block_no ((d :: ds).take BLOCK_SIZE) mr s) block_no
      (fun s2 =>
        send_loop pt mr fuel ((d :: ds).drop BLOCK_SIZE) ((block_no + 1) % 256) s2)

/-- The reply to the second EOT (sent after a NAK to the first): only an
ACK completes the transfer, any other byte or a timeout is the missing
final ACK; note a CAN here is not special-cased by the source. -/
def eot_reply2 (r2 : Option Nat × List (Option Nat)) (w2 : List Nat) : Outcome × Ser :=
  match r2 with
  | (some b2, tr2) => (if b2 = ACK then .done else .eotNotAcked, ⟨tr2, w2⟩)
  | (none, tr2) => (.eotNotAcked, ⟨tr2, w2⟩)

/-- The reply to the first EOT: ACK completes, NAK triggers one EOT resend,
CAN raises the cancellation, anything else or a timeout is the missing
final ACK. -/
def eot_reply1 (pt : Nat) (r1 : Option Nat × List (Option Nat)) (w1 : List Nat) :
    Outcome × Ser :=
  match r1 with
  | (some b, tr1) =>
    if b = ACK then (.done, ⟨tr1, w1⟩)
    else if b = NAK then eot_reply2 (read_with_timeout tr1 pt) (w1 ++ [EOT])
    else if b = CAN then (.cancelled, ⟨tr1, w1⟩)
    else (.eotNotAcked, ⟨tr1, w1⟩)
  | (none, tr1) => (.eotNotAcked, ⟨tr1, w1⟩)

/-- Model of send_eot: send EOT, allow one NAK-then-resend, raise on CAN on
the first reply only; anything else is the False return, reported by the
engine as the missing final ACK. -/
def send_eot (pt : Nat) (s : Ser) : Outcome × Ser :=
  eot_reply1 pt (read_with_timeout s.trace pt) (s.written ++ [EOT])

/-- Dispatch after the send loop: a loop failure is the final outcome,
otherwise the engine proceeds to the EOT exchange. -/
def finish_resolve (r : Option Outcome × Ser) (pt : Nat) : Outcome × Ser :=
  match r.1 with
  | some o => (o, r.2)
  | none => send_eot pt r.2

/-- Model of xmodem_crc_send: handshake, per-block loop, then EOT. -/
def xmodem_crc_send (it pt mr : Nat) (data : List Nat) (s : Ser) : Outcome × Ser :=
  match wait_for_receiver_crc_request s.trace it with
  | (false, tr1) => (.noHandshake, ⟨tr1, s.written⟩)
  | (true, tr1) =>
    finish_resolve (send_loop pt mr data.length data 1 ⟨tr1, s.written⟩) pt

/-- The progress percentage printed after each accepted block:
(sent / total) * 100 when total is nonzero, else 100.0. -/
def progress_pct (sent total : Nat) : ℚ :=
  if total = 0 then 100 else ((sent : ℚ) / (total : ℚ)) * 100

/-- One step of the spec-level CRC: MSB-first bit processing, polynomial
0x1021, as described in the CRC16Engine contract.  Used as the refinement
reference for crc16_ccitt. -/
def crc_bit_step (crc : Nat) (bit : Bool) : Nat :=
  if (crc.testBit 15).xor bit then ((crc <<< 1) &&& 0xFFFF) ^^^ 0x1021
  else (crc <<< 1) &&& 0xFFFF

/-- The eight bits of a byte, most significant first. -/
def byte_bits_msb (b : Nat) : List Bool :=
  [b.testBit 7, b.testBit 6, b.testBit 5, b.testBit 4,
   b.testBit 3, b.testBit 2, b.testBit 1, b.testBit 0]

/-- Spec-level CRC-16/CCITT-XMODEM: initial value 0x0000, each message bit
fed MSB-first into the shift register, no reflection, no final xor. -/
def crc16_xmodem_spec (data : List Nat) : Nat :=
  data.foldl (fun c b => (byte_bits_msb b).foldl crc_bit_step c) 0x0000

/-- The 128-byte chunking of the data performed by the send loop
(chunk = data[sent : sent + 128]).  The fuel argument bounds the recursion
and any value at least the data length gives the same result. -/
def chunksAux : Nat → List Nat → List (List Nat)
  | 0, _ => []
  | _ + 1, [] => []
  | fuel + 1, d :: ds =>
    (d :: ds).take BLOCK_SIZE :: chunksAux fuel ((d :: ds).drop BLOCK_SIZE)

/-- The chunks sent for a given input, in order. -/
def chunksOf (data : List Nat) : List (List Nat) :=
  chunksAux data.length data

/-- The packets the engine transmits for a list of chunks, starting at a
given block number and advancing modulo 256. -/
def packetsOf : Nat → List (List Nat) → List (List Nat)
  | _, [] => []
  | block_no, c :: cs => mkPacket block_no c :: packetsOf ((block_no + 1) % 256) cs

/-- A reply trace consisting of n immediate ACKs. -/
def allAcks (n : Nat) : List (Option Nat) := List.replicate n (some ACK)

/-- A reply trace consisting of n immediate NAKs. -/
def nakReplies (n : Nat) : List (Option Nat) := List.replicate n (some NAK)

/-- Static flash partition table entry, from FLASH_SECTIONS in
utils/flash-split.py. -/
structure FlashSection where
  name : String
  addr : Nat
  size : Option Nat
  ram_addr : Option Nat
  desc : String
deriving DecidableEq

/-- The fixed eight-entry partition table of utils/flash-split.py. -/
def FLASH_SECTIONS : List FlashSection := [
  ⟨"ota_jump_code", 0x00000000, some 0x0C10, some 0x00008000,
    "Loaded by ROM bootloader"⟩,
  ⟨"ota_boot_32k", 0x00008000, some 0x1FB8, some 0x20008000,
    "Loaded by jump_code, check Boot Area, load AppX/Factory, update AppX"⟩,
  ⟨"Boot Area", 0x00010000, some 8, none, "Boot configuration"⟩,
  ⟨"Radar Config", 0x00014000, some 0x108, none,
    "There are settings like: mounting type, interference and detections areas, etc"⟩,
  ⟨"App1", 0x00017FF0, none, some 0x00008000, "Radar App1"⟩,
  ⟨"App2", 0x00027FF0, none, some 0x00008000, "Radar App2"⟩,
  ⟨"Factory Default", 0x00038000, none, some 0x00008000, "Factory Default"⟩,
  ⟨"Unknown", 0x00048000, some 0x3C, none, "Unknown section"⟩]

/-- Parsed 16-byte app descriptor, from parse_app_descriptor. -/
structure AppDescriptor where
  size1 : Nat
  size2 : Nat
  signature : Nat
  address : Nat
  valid : Bool
deriving DecidableEq

/-- Result of descriptor parsing for one section: the two error dicts the
source can attach, or the parsed header. -/
inductive DescResult
  | insufficientData (got : Nat)
  | sectionTooSmall (got : Nat)
  | ok (d : AppDescriptor)
deriving DecidableEq

/-- Little-endian 16-bit value of two bytes. -/
def u16le (b0 b1 : Nat) : Nat := b0 + 256 * b1

/-- Little-endian 32-bit value of four bytes. -/
def u32le (b0 b1 b2 b3 : Nat) : Nat :=
  b0 + 256 * b1 + 65536 * b2 + 16777216 * b3

/-- Model of parse_app_descriptor: needs at least 16 bytes; size1 and size2
little-endian at offsets 0 and 2, signature byte at offset 4 (valid when it
is 90, ASCII Z, and the two sizes agree), address at offsets 5 to 8. -/
def parse_app_descriptor (data : List Nat) : DescResult :=
  if data.length < 16 then .insufficientData data.length
  else
    let size1 := u16le (data.getD 0 0) (data.getD 1 0)
    let size2 := u16le (data.getD 2 0) (data.getD 3 0)
    let signature := data.getD 4 0
    let address := u32le (data.getD 5 0) (data.getD 6 0) (data.getD 7 0) (data.getD 8 0)
    .ok ⟨size1, size2, signature, address,
      decide (size1 = size2) && decide (signature = 90)⟩

/-- Per-section report emitted by parse_flash: either the address-beyond-
image error entry, or a full entry with resolved size, descriptor result
and the raw section bytes. -/
inductive SectionReport
  | outOfRange (name : String) (addr : Nat)
  | parsed (name : String) (addr : Nat) (size : Option Nat)
      (descriptor : DescResult) (data : List Nat)
deriving DecidableEq

/-- The name a report carries. -/
def report_name : SectionReport → String
  | .outOfRange n _ => n
  | .parsed n _ _ _ _ => n

/-- The loop body of parse_flash for a single table entry. -/
def parse_section (flash : List Nat) (sec : FlashSection) : SectionReport :=
  if sec.addr ≥ flash.length then .outOfRange sec.name sec.addr
  else
    match sec.size with
    | some sz =>
      let sd := (flash.drop sec.addr).take sz
      if sd.length ≥ 16 then
        .parsed sec.name sec.addr (some sz) (parse_app_descriptor sd) sd
      else .parsed sec.name sec.addr (some sz) (.sectionTooSmall sd.length) sd
    | none =>
      let sd := (flash.drop sec.addr).take 16
      if sd.length ≥ 16 then
        match parse_app_descriptor sd with
        | .ok d =>
          if d.valid then
            .parsed sec.name sec.addr (some d.size1) (.ok d)
              ((flash.drop sec.addr).take d.size1)
          else .parsed sec.name sec.addr none (.ok d) sd
        | e => .parsed sec.name sec.addr none e sd
      else .parsed sec.name sec.addr none (.sectionTooSmall sd.length) sd

/-- Model of parse_flash: one report per table entry, in table order. -/
def parse_flash (flash : List Nat) : List SectionReport :=
  FLASH_SECTIONS.map (parse_section flash)

/-- The transformation applied by save_sections_to_files to a section name:
every space replaced by an underscore, then lowercased.  Since the replaced
pattern is the single space character, the replacement is a per-character
map. -/
def safe_name (s : String) : String :=
  ⟨(s.data.map (fun c => if c = ' ' then '_' else c)).map Char.toLower⟩

/-- Artifact name used by save_sections_to_files:
prefix, underscore, the transformed section name, then the .bin extension. -/
def section_filename (pfx name : String) : String :=
  pfx ++ "_" ++ safe_name name ++ ".bin"

/-- Observable result of the save phase: how many sections were saved, the
filenames whose writes failed (the per-file error messages), and the
successfully written files with their contents. -/
structure SaveResult where
  saved : Nat
  errors : List String
  files : List (String × List Nat)
deriving DecidableEq

/-- One step of save_sections_to_files for a single report.  File-system
success is abstracted by the writeOk oracle; a failed write records the
filename and processing continues. -/
def save_step (pfx : String) (writeOk : String → Bool) (acc : SaveResult)
    (r : SectionReport) : SaveResult :=
  match r with
  | .parsed name _ _ (.ok d) data =>
    if d.valid then
      let fn := section_filename pfx name
      if writeOk fn then ⟨acc.saved + 1, acc.errors, acc.files ++ [(fn, data)]⟩
      else ⟨acc.saved, acc.errors ++ [fn], acc.files⟩
    else acc
  | _ => acc

/-- Model of save_sections_to_files: fold over the reports in order,
saving only those whose descriptor is present and valid. -/
def save_sections_to_files (reports : List SectionReport) (pfx : String)
    (writeOk : String → Bool) : SaveResult :=
  reports.foldl (save_step pfx writeOk) ⟨0, [], []⟩

/-- The reports save_sections_to_files considers savable: descriptor
present and valid, paired as (name, data). -/
def valid_sections : List SectionReport → List (String × List Nat)
  | [] => []
  | .parsed name _ _ (.ok d) data :: rs =>
    if d.valid then (name, data) :: valid_sections rs else valid_sections rs
  | _ :: rs => valid_sections rs

/-- Concatenation of k copies of a packet: the bytes put on the wire by k
identical (re)sends of the same block. -/
def joinN : Nat → List Nat → List Nat
  | 0, _ => []
  | k + 1, p => p ++ joinN k p

/-- Concatenation of a list of packets in order: the byte stream they put
on the wire. -/
def joinAll : List (List Nat) → List Nat
  | [] => []
  | p :: ps => p ++ joinAll ps

/-- The files successfully written by the save phase, given the oracle of
which file writes succeed. -/
def saved_files (pfx : String) (writeOk : String → Bool) :
    List (String × List Nat) → List (String × List Nat)
  | [] => []
  | nd :: vs =>
    if writeOk (section_filename pfx nd.1) then
      (section_filename pfx nd.1, nd.2) :: saved_files pfx writeOk vs
    else saved_files pfx writeOk vs

/-- The filenames whose writes fail during the save phase. -/
def failed_files (pfx : String) (writeOk : String → Bool) :
    List (String × List Nat) → List String
  | [] => []
  | nd :: vs =>
    if writeOk (section_filename pfx nd.1) then failed_files pfx writeOk vs
    else section_filename pfx nd.1 :: failed_files pfx writeOk vs

/-- A synthetic flash image used to exercise the decoder on the App1 entry:
zeros up to base address 0x17FF0, then a 16-byte header declaring
size1 = size2 = 4 with signature Z (90). -/
def c8_flash : List Nat :=
  List.replicate 0x17FF0 0 ++ [4, 0, 4, 0, 90, 0, 0, 0, 0, 0, 0, 0, 0, 0, 0, 0]

lemma and_two_pow_sub_one (x n : Nat) : x &&& (2 ^ n - 1) = x % 2 ^ n := by
  apply Nat.eq_of_testBit_eq
  intro i
  rw [Nat.testBit_and, Nat.testBit_mod_two_pow, Nat.testBit_two_pow_sub_one,
    Bool.and_comm]

lemma and_255 (x : Nat) : x &&& 0xFF = x % 256 := by
  have h : (0xFF : Nat) = 2 ^ 8 - 1 := by norm_num
  rw [h, and_two_pow_sub_one]
  norm_num

lemma and_ffff (x : Nat) : x &&& 0xFFFF = x % 65536 := by
  have h : (0xFFFF : Nat) = 2 ^ 16 - 1 := by norm_num
  rw [h, and_two_pow_sub_one]
  norm_num

lemma xpad_length (chunk : List Nat) (h : chunk.length ≤ 128) :
    (xpad chunk).length = 128 := by
  unfold xpad BLOCK_SIZE
  split
  · simp only [List.length_append, List.length_replicate]
    omega
  · omega

lemma mkPacket_length (bn : Nat) (chunk : List Nat) (h : chunk.length ≤ 128) :
    (mkPacket bn chunk).length = 133 := by
  unfold mkPacket
  simp only [List.length_append, List.length_cons, List.length_nil,
    xpad_length chunk h]

/-- C5, amended: for every block number (as a u8) and every chunk of at most
128 bytes, the encoded packet is exactly 133 bytes (1 SOH + 1 block number +
1 complement + 128 payload + 2 CRC; the claimed 132 miscounts the header),
laid out as SOH, blockNumber, 0xFF - blockNumber, the payload padded to 128
bytes with 0x1A, then the CRC16 computed over the padded payload only, high
byte first; a chunk longer than 128 bytes yields the ChunkTooLarge error
instead of a packet. -/
theorem c5_encode (bn : Nat) (chunk : List Nat) (hbn : bn ≤ 255)
    (hc : chunk.length ≤ 128) :
    encode bn chunk = .ok (mkPacket bn chunk)
    ∧ mkPacket bn chunk =
        [SOH, bn, 0xFF - bn] ++ xpad chunk ++
          [(crc16_ccitt (xpad chunk) >>> 8) &&& 0xFF, crc16_ccitt (xpad chunk) &&& 0xFF]
    ∧ (mkPacket bn chunk).length = 133
    ∧ (xpad chunk).length = 128
    ∧ (∀ big : List Nat, 128 < big.length → encode bn big = .error .chunkTooLarge) := by
  have hmask : bn &&& 0xFF = bn := by
    rw [and_255]
    exact Nat.mod_eq_of_lt (by omega)
  refine ⟨?_, ?_, mkPacket_length bn chunk hc, xpad_length chunk hc, ?_⟩
  · unfold encode BLOCK_SIZE
    rw [if_neg (by omega)]
  · unfold mkPacket
    rw [hmask]
  · intro big hbig
    unfold encode BLOCK_SIZE
    rw [if_pos (by omega)]

/-- Witness for c5_encode at block number 1 and the one-byte chunk [7]. -/
theorem c5_encode_witness :
    (1 : Nat) ≤ 255 ∧ ([7] : List Nat).length ≤ 128
    ∧ encode 1 [7] = .ok (mkPacket 1 [7])
    ∧ (mkPacket 1 [7]).length = 133 :=
  ⟨by decide, by decide, (c5_encode 1 [7] (by decide) (by decide)).1,
    (c5_encode 1 [7] (by decide) (by decide)).2.2.1⟩

/-- Counterexample for C5 as stated: the packet for block 1 and chunk [7] is
a well-formed encoding but has 133 bytes, not 132. -/
theorem c5_counterexample :
    encode 1 [7] = .ok (mkPacket 1 [7]) ∧ (mkPacket 1 [7]).length ≠ 132 := by
  refine ⟨rfl, ?_⟩
  rw [mkPacket_length 1 [7] (by decide)]
  decide

lemma shiftLeft_xor_distrib (a b n : Nat) :
    (a ^^^ b) <<< n = (a <<< n) ^^^ (b <<< n) := by
  apply Nat.eq_of_testBit_eq
  intro i
  simp only [Nat.testBit_shiftLeft, Nat.testBit_xor]
  cases decide (i ≥ n) <;> cases a.testBit (i - n) <;> cases b.testBit (i - n) <;> rfl

lemma xor_mix (a b c d : Nat) :
    (a ^^^ b) ^^^ (c ^^^ d) = (a ^^^ c) ^^^ (b ^^^ d) := by
  apply Nat.eq_of_testBit_eq
  intro i
  simp only [Nat.testBit_xor]
  cases a.testBit i <;> cases b.testBit i <;> cases c.testBit i <;> cases d.testBit i <;> rfl

lemma and_0x8000 (c : Nat) : c &&& 0x8000 = (c.testBit 15).toNat * 0x8000 := by
  have h : (0x8000 : Nat) = 2 ^ 15 := by norm_num
  rw [h, Nat.and_two_pow]

lemma crc_round_eq (c : Nat) :
    crc_round c = ((c <<< 1) &&& 0xFFFF) ^^^ (if c.testBit 15 then 0x1021 else 0) := by
  unfold crc_round
  cases h : c.testBit 15 <;> simp [and_0x8000, h]

lemma ite_xor_split (x y : Bool) (P : Nat) :
    (if x.xor y then P else 0) = (if x then P else 0) ^^^ (if y then P else 0) := by
  cases x <;> cases y <;> simp

lemma crc_round_linear (c m : Nat) :
    crc_round (c ^^^ m) = crc_round c ^^^ crc_round m := by
  rw [crc_round_eq, crc_round_eq, crc_round_eq, Nat.testBit_xor,
    shiftLeft_xor_distrib, Nat.and_xor_distrib_right, ite_xor_split, xor_mix]

lemma crc_rounds_linear (n : Nat) : ∀ c m,
    crc_rounds n (c ^^^ m) = crc_rounds n c ^^^ crc_rounds n m := by
  induction n with
  | zero => intro c m; rfl
  | succ k ih =>
    intro c m
    show crc_rounds k (crc_round (c ^^^ m)) = _
    rw [crc_round_linear, ih]
    rfl

lemma crc_bit_step_canon (c : Nat) (bit : Bool) :
    crc_bit_step c bit =
      ((c <<< 1) &&& 0xFFFF) ^^^ (if (c.testBit 15).xor bit then 0x1021 else 0) := by
  unfold crc_bit_step
  cases h : (c.testBit 15).xor bit <;> simp [h]

lemma crc_bit_step_as_round (c : Nat) (bit : Bool) :
    crc_bit_step c bit = crc_round (c ^^^ (if bit then 0x8000 else 0)) := by
  cases bit with
  | false =>
    show crc_bit_step c false = crc_round (c ^^^ 0)
    rw [Nat.xor_zero, crc_bit_step_canon, crc_round_eq, Bool.xor_false]
  | true =>
    show crc_bit_step c true = crc_round (c ^^^ 0x8000)
    rw [crc_bit_step_canon, crc_round_eq, Nat.testBit_xor, shiftLeft_xor_distrib,
      Nat.and_xor_distrib_right]
    have h1 : ((0x8000 : Nat) <<< 1) &&& 0xFFFF = 0 := by decide
    have h2 : Nat.testBit 0x8000 15 = true := by decide
    rw [h1, h2, Nat.xor_zero]

lemma bits_foldl_affine : ∀ (bits : List Bool) (c : Nat),
    bits.foldl crc_bit_step c =
      crc_rounds bits.length c ^^^ bits.foldl crc_bit_step 0 := by
  intro bits
  induction bits with
  | nil => intro c; simp [crc_rounds]
  | cons t ts ih =>
    intro c
    show ts.foldl crc_bit_step (crc_bit_step c t) = _
    have hstep : crc_bit_step c t = crc_round c ^^^ crc_bit_step 0 t := by
      rw [crc_bit_step_as_round c t, crc_round_linear, crc_bit_step_as_round 0 t,
        Nat.zero_xor]
    rw [ih (crc_bit_step c t), hstep, crc_rounds_linear]
    show _ = crc_rounds ts.length (crc_round c) ^^^ ((t :: ts).foldl crc_bit_step 0)
    have h0 : (t :: ts).foldl crc_bit_step 0 = ts.foldl crc_bit_step (crc_bit_step 0 t) := rfl
    rw [h0, ih (crc_bit_step 0 t), Nat.xor_assoc]

lemma byte_fold_const : ∀ b, b < 256 →
    (byte_bits_msb b).foldl crc_bit_step 0 = crc_rounds 8 (b <<< 8) := by
  decide

lemma byte_fold_eq (c b : Nat) (hb : b < 256) :
    (byte_bits_msb b).foldl crc_bit_step c = crc_rounds 8 (c ^^^ (b <<< 8)) := by
  have hlen : (byte_bits_msb b).length = 8 := rfl
  rw [bits_foldl_affine, hlen, byte_fold_const b hb, crc_rounds_linear]

lemma crc_round_lt (c : Nat) : crc_round c < 65536 := by
  rw [crc_round_eq]
  have h1 : (c <<< 1) &&& 0xFFFF < 2 ^ 16 :=
    lt_of_le_of_lt Nat.and_le_right (by norm_num)
  have h2 : (if c.testBit 15 then 0x1021 else 0) < 2 ^ 16 := by
    cases c.testBit 15 <;> norm_num
  have := Nat.xor_lt_two_pow h1 h2
  omega

lemma crc_rounds_lt : ∀ n c, c < 65536 → crc_rounds n c < 65536 := by
  intro n
  induction n with
  | zero => intro c h; exact h
  | succ k ih =>
    intro c _
    exact ih (crc_round c) (crc_round_lt c)

lemma crc_byte_fold_lt (c b : Nat) : crc_rounds 8 (c ^^^ (b <<< 8)) < 65536 := by
  show crc_rounds 7 (crc_round (c ^^^ (b <<< 8))) < 65536
  exact crc_rounds_lt 7 _ (crc_round_lt _)

lemma crc_fold_lt : ∀ (data : List Nat) (c : Nat), c < 65536 →
    data.foldl (fun crc b => crc_rounds 8 (crc ^^^ (b <<< 8))) c < 65536 := by
  intro data
  induction data with
  | nil => intro c h; exact h
  | cons d ds ih =>
    intro c _
    exact ih _ (crc_byte_fold_lt c d)

lemma crc_fold_eq : ∀ (data : List Nat) (c : Nat), (∀ b ∈ data, b < 256) →
    data.foldl (fun x b => (byte_bits_msb b).foldl crc_bit_step x) c =
      data.foldl (fun crc b => crc_rounds 8 (crc ^^^ (b <<< 8))) c := by
  intro data
  induction data with
  | nil => intro c _; rfl
  | cons d ds ih =>
    intro c hb
    show ds.foldl _ ((byte_bits_msb d).foldl crc_bit_step c) = _
    rw [byte_fold_eq c d (hb d (List.mem_cons_self d ds))]
    exact ih _ (fun b hbb => hb b (List.mem_cons_of_mem d hbb))

/-- C6: the source CRC function is exactly the spec-level CRC-16/CCITT-XMODEM
(polynomial 0x1021, initial value 0x0000, MSB-first bit processing, no
reflection, no final xor) on byte input, and it satisfies both reference
vectors: the ASCII digits 1 to 9 give 0x31C3 and the empty input gives 0. -/
theorem c6_crc16 :
    (∀ data : List Nat, (∀ b ∈ data, b < 256) →
      crc16_xmodem_spec data = crc16_ccitt data)
    ∧ crc16_ccitt [0x31, 0x32, 0x33, 0x34, 0x35, 0x36, 0x37, 0x38, 0x39] = 0x31C3
    ∧ crc16_ccitt [] = 0x0000 := by
  refine ⟨?_, by decide, by decide⟩
  intro data hb
  unfold crc16_xmodem_spec crc16_ccitt
  rw [crc_fold_eq data 0 hb, and_ffff,
    Nat.mod_eq_of_lt (crc_fold_lt data 0 (by norm_num))]

/-- Witness for c6_crc16 at the one-byte input 0x5A. -/
theorem c6_crc16_witness :
    (∀ b ∈ [(0x5A : Nat)], b < 256)
    ∧ crc16_xmodem_spec [0x5A] = crc16_ccitt [0x5A] :=
  ⟨by decide, c6_crc16.1 [0x5A] (by decide)⟩

lemma report_name_parse_section (flash : List Nat) (sec : FlashSection) :
    report_name (parse_section flash sec) = sec.name := by
  unfold parse_section
  split
  · rfl
  · split
    · dsimp only
      split <;> rfl
    · dsimp only
      split
      · split
        · split <;> rfl
        · rfl
      · rfl

/-- C7: for every image the decoder emits exactly one report per table
entry, in the declared table order (the report at index i is the one for
the table entry at index i and carries its name); an entry whose base
address is at or beyond the end of the image yields the out-of-range error
report with no descriptor, and the scan continues with the remaining
entries.  Totality of parse_flash on arbitrary byte lists is the
never-panics part. -/
theorem c7_decode_reports (flash : List Nat) :
    (parse_flash flash).length = FLASH_SECTIONS.length
    ∧ (∀ i sec, FLASH_SECTIONS.get? i = some sec →
        (parse_flash flash).get? i = some (parse_section flash sec))
    ∧ (∀ i sec, FLASH_SECTIONS.get? i = some sec →
        ((parse_flash flash).get? i).map report_name = some sec.name)
    ∧ (∀ i sec, FLASH_SECTIONS.get? i = some sec → sec.addr ≥ flash.length →
        (parse_flash flash).get? i = some (.outOfRange sec.name sec.addr)) := by
  refine ⟨by simp [parse_flash], ?_, ?_, ?_⟩
  · intro i sec h
    show (FLASH_SECTIONS.map (parse_section flash)).get? i = _
    rw [List.get?_map, h, Option.map_some']
  · intro i sec h
    show ((FLASH_SECTIONS.map (parse_section flash)).get? i).map report_name = _
    rw [List.get?_map, h, Option.map_some', Option.map_some',
      report_name_parse_section]
  · intro i sec h hge
    show (FLASH_SECTIONS.map (parse_section flash)).get? i = _
    rw [List.get?_map, h, Option.map_some']
    have hps : parse_section flash sec = .outOfRange sec.name sec.addr := by
      unfold parse_section
      rw [if_pos hge]
    rw [hps]

/-- Witness for c7_decode_reports: the empty image puts every entry out of
range; shown here for the last table entry. -/
theorem c7_decode_reports_witness :
    FLASH_SECTIONS.get? 7 =
        some ⟨"Unknown", 0x00048000, some 0x3C, none, "Unknown section"⟩
    ∧ (0x00048000 : Nat) ≥ ([] : List Nat).length
    ∧ (parse_flash []).get? 7 = some (.outOfRange "Unknown" 0x00048000) :=
  ⟨rfl, by decide,
    (c7_decode_reports []).2.2.2 7
      ⟨"Unknown", 0x00048000, some 0x3C, none, "Unknown section"⟩ rfl (by decide)⟩

/-- C8: for a table entry with no size hint whose in-range 16-byte header
parses to a valid descriptor (size1 = size2, signature Z), the report
carries resolved size N = size1, and its raw bytes are the re-slice of the
image from the base address with length N clamped to the image end; when
the slice lies fully inside the image the raw bytes have length exactly N. -/
theorem c8_derived_size (flash : List Nat) (i : Nat) (sec : FlashSection)
    (d : AppDescriptor) (N : Nat)
    (hsec : FLASH_SECTIONS.get? i = some sec)
    (hnone : sec.size = none)
    (haddr : sec.addr < flash.length)
    (hlen : ((flash.drop sec.addr).take 16).length ≥ 16)
    (hparse : parse_app_descriptor ((flash.drop sec.addr).take 16) = .ok d)
    (hvalid : d.valid = true)
    (hN : d.size1 = N) :
    (parse_flash flash).get? i =
      some (.parsed sec.name sec.addr (some N) (.ok d) ((flash.drop sec.addr).take N))
    ∧ (sec.addr + N ≤ flash.length → ((flash.drop sec.addr).take N).length = N) := by
  constructor
  · show (FLASH_SECTIONS.map (parse_section flash)).get? i = _
    rw [List.get?_map, hsec, Option.map_some']
    have hps : parse_section flash sec =
        .parsed sec.name sec.addr (some d.size1) (.ok d)
          ((flash.drop sec.addr).take d.size1) := by
      unfold parse_section
      rw [if_neg (Nat.not_le.mpr haddr), hnone]
      dsimp only
      rw [if_pos hlen, hparse]
      dsimp only
      rw [if_pos hvalid]
    rw [hps, hN]
  · intro hle
    rw [List.length_take, List.length_drop]
    omega

/-- Witness for c8_derived_size on the synthetic image c8_flash: the App1
entry (index 4, base 0x17FF0) with a valid header declaring N = 4. -/
theorem c8_derived_size_witness :
    FLASH_SECTIONS.get? 4 = some ⟨"App1", 0x00017FF0, none, some 0x00008000, "Radar App1"⟩
    ∧ parse_app_descriptor ((c8_flash.drop 0x00017FF0).take 16) = .ok ⟨4, 4, 90, 0, true⟩
    ∧ (parse_flash c8_flash).get? 4 =
        some (.parsed "App1" 0x00017FF0 (some 4) (.ok ⟨4, 4, 90, 0, true⟩)
          ((c8_flash.drop 0x00017FF0).take 4))
    ∧ ((c8_flash.drop 0x00017FF0).take 4).length = 4 := by
  have hdrop : c8_flash.drop 0x00017FF0 =
      [4, 0, 4, 0, 90, 0, 0, 0, 0, 0, 0, 0, 0, 0, 0, 0] := by
    have hlen : (List.replicate 0x00017FF0 (0 : Nat)).length = 0x00017FF0 :=
      List.length_replicate 0x00017FF0 0
    calc c8_flash.drop 0x00017FF0
        = (List.replicate 0x00017FF0 (0 : Nat) ++
            [4, 0, 4, 0, 90, 0, 0, 0, 0, 0, 0, 0, 0, 0, 0, 0]).drop
              (List.replicate 0x00017FF0 (0 : Nat)).length := by rw [hlen]; rfl
      _ = [4, 0, 4, 0, 90, 0, 0, 0, 0, 0, 0, 0, 0, 0, 0, 0] := List.drop_left _ _
  have hflen : c8_flash.length = 0x00017FF0 + 16 := by
    show (List.replicate 0x00017FF0 (0 : Nat) ++
      [4, 0, 4, 0, 90, 0, 0, 0, 0, 0, 0, 0, 0, 0, 0, 0]).length = _
    rw [List.length_append, List.length_replicate]
    rfl
  have hparse : parse_app_descriptor ((c8_flash.drop 0x00017FF0).take 16) =
      .ok ⟨4, 4, 90, 0, true⟩ := by
    rw [hdrop]
    rfl
  have happ := c8_derived_size c8_flash 4
    ⟨"App1", 0x00017FF0, none, some 0x00008000, "Radar App1"⟩
    ⟨4, 4, 90, 0, true⟩ 4 rfl rfl
    (by show (0x00017FF0 : Nat) < c8_flash.length; rw [hflen]; omega)
    (by rw [hdrop]; decide) hparse rfl rfl
  exact ⟨rfl, hparse, happ.1,
    happ.2 (by show (0x00017FF0 : Nat) + 4 ≤ c8_flash.length; rw [hflen]; omega)⟩

lemma save_fold_eq (pfx : String) (wOk : String → Bool) :
    ∀ (reports : List SectionReport) (acc : SaveResult),
    reports.foldl (save_step pfx wOk) acc =
      ⟨acc.saved + (saved_files pfx wOk (valid_sections reports)).length,
       acc.errors ++ failed_files pfx wOk (valid_sections reports),
       acc.files ++ saved_files pfx wOk (valid_sections reports)⟩ := by
  intro reports
  induction reports with
  | nil =>
    intro acc
    cases acc
    simp [valid_sections, saved_files, failed_files]
  | cons r rs ih =>
    intro acc
    rw [List.foldl_cons]
    cases r with
    | outOfRange n a =>
      rw [show save_step pfx wOk acc (.outOfRange n a) = acc from rfl]
      exact ih acc
    | parsed n a sz dr data =>
      cases dr with
      | insufficientData g =>
        rw [show save_step pfx wOk acc (.parsed n a sz (.insufficientData g) data) = acc
          from rfl]
        exact ih acc
      | sectionTooSmall g =>
        rw [show save_step pfx wOk acc (.parsed n a sz (.sectionTooSmall g) data) = acc
          from rfl]
        exact ih acc
      | ok d =>
        have hstep_eq : save_step pfx wOk acc (.parsed n a sz (.ok d) data)
            = (if d.valid then
                (if wOk (section_filename pfx n) then
                  (⟨acc.saved + 1, acc.errors,
                    acc.files ++ [(section_filename pfx n, data)]⟩ : SaveResult)
                else ⟨acc.saved, acc.errors ++ [section_filename pfx n], acc.files⟩)
              else acc) := rfl
        have hvs_eq : valid_sections (.parsed n a sz (.ok d) data :: rs)
            = (if d.valid then (n, data) :: valid_sections rs
               else valid_sections rs) := rfl
        cases hvd : d.valid with
        | false =>
          rw [hstep_eq, hvs_eq, hvd]
          simp only [Bool.false_eq_true, if_false]
          exact ih acc
        | true =>
          rw [hstep_eq, hvs_eq, hvd]
          simp only [if_true]
          have hsf_eq : saved_files pfx wOk ((n, data) :: valid_sections rs)
              = (if wOk (section_filename pfx n) then
                  (section_filename pfx n, data) :: saved_files pfx wOk (valid_sections rs)
                else saved_files pfx wOk (valid_sections rs)) := rfl
          have hff_eq : failed_files pfx wOk ((n, data) :: valid_sections rs)
              = (if wOk (section_filename pfx n) then
                  failed_files pfx wOk (valid_sections rs)
                else section_filename pfx n :: failed_files pfx wOk (valid_sections rs)) := rfl
          cases hw : wOk (section_filename pfx n) with
          | true =>
            rw [hsf_eq, hff_eq, hw]
            simp only [if_true]
            rw [ih]
            simp [List.append_assoc]
            omega
          | false =>
            rw [hsf_eq, hff_eq, hw]
            simp only [Bool.false_eq_true, if_false]
            rw [ih]
            simp [List.append_assoc]

/-- C9: the save phase writes raw bytes exactly for the reports whose
descriptor is present and valid and whose file write succeeds, in report
order, naming each artifact from the prefix and the transformed section
name; a failed write is recorded per file and processing continues; every
valid report is accounted for either as a save or as a per-file error, so
the run with zero valid partitions (no saves, no errors) is observably
distinct from a run whose valid partitions all failed to write (no saves,
nonempty error list).  Reports with an invalid descriptor, in particular
any parsed header with size1 different from size2 or a signature other
than Z, are skipped. -/
theorem c9_save_valid (reports : List SectionReport) (pfx : String)
    (wOk : String → Bool) :
    save_sections_to_files reports pfx wOk =
      ⟨(saved_files pfx wOk (valid_sections reports)).length,
       failed_files pfx wOk (valid_sections reports),
       saved_files pfx wOk (valid_sections reports)⟩
    ∧ (saved_files pfx wOk (valid_sections reports)).length
        + (failed_files pfx wOk (valid_sections reports)).length
        = (valid_sections reports).length
    ∧ (valid_sections reports = [] →
        save_sections_to_files reports pfx wOk = ⟨0, [], []⟩)
    ∧ (valid_sections reports ≠ [] →
        (save_sections_to_files reports pfx wOk).saved ≠ 0
        ∨ (save_sections_to_files reports pfx wOk).errors ≠ [])
    ∧ (∀ d name a sz data acc, d.valid = false →
        save_step pfx wOk acc (.parsed name a sz (.ok d) data) = acc)
    ∧ (∀ hdr d, parse_app_descriptor hdr = .ok d →
        (d.size1 ≠ d.size2 ∨ d.signature ≠ 90) → d.valid = false) := by
  have hmain : save_sections_to_files reports pfx wOk =
      ⟨(saved_files pfx wOk (valid_sections reports)).length,
       failed_files pfx wOk (valid_sections reports),
       saved_files pfx wOk (valid_sections reports)⟩ := by
    unfold save_sections_to_files
    rw [save_fold_eq]
    simp
  have hcount : ∀ vs : List (String × List Nat),
      (saved_files pfx wOk vs).length + (failed_files pfx wOk vs).length
        = vs.length := by
    intro vs
    induction vs with
    | nil => rfl
    | cons nd tl ih =>
      have hsf_eq : saved_files pfx wOk (nd :: tl)
          = (if wOk (section_filename pfx nd.1) then
              (section_filename pfx nd.1, nd.2) :: saved_files pfx wOk tl
            else saved_files pfx wOk tl) := rfl
      have hff_eq : failed_files pfx wOk (nd :: tl)
          = (if wOk (section_filename pfx nd.1) then failed_files pfx wOk tl
            else section_filename pfx nd.1 :: failed_files pfx wOk tl) := rfl
      rw [hsf_eq, hff_eq]
      cases hw : wOk (section_filename pfx nd.1) with
      | true => simp only [if_true, List.length_cons]; omega
      | false => simp only [Bool.false_eq_true, if_false, List.length_cons]; omega
  refine ⟨hmain, hcount _, ?_, ?_, ?_, ?_⟩
  · intro hempty
    rw [hmain, hempty]
    rfl
  · intro hne
    rw [hmain]
    by_cases hz : (saved_files pfx wOk (valid_sections reports)).length = 0
    · right
      have := hcount (valid_sections reports)
      intro hcontra
      have hff : failed_files pfx wOk (valid_sections reports) = [] := hcontra
      have : (failed_files pfx wOk (valid_sections reports)).length = 0 := by
        rw [hff]
        rfl
      have hlen0 : (valid_sections reports).length = 0 := by omega
      exact hne (List.eq_nil_of_length_eq_zero hlen0)
    · left
      exact hz
  · intro d name a sz data acc hvd
    have hstep_eq : save_step pfx wOk acc (.parsed name a sz (.ok d) data)
        = (if d.valid then
            (if wOk (section_filename pfx name) then
              (⟨acc.saved + 1, acc.errors,
                acc.files ++ [(section_filename pfx name, data)]⟩ : SaveResult)
            else ⟨acc.saved, acc.errors ++ [section_filename pfx name], acc.files⟩)
          else acc) := rfl
    rw [hstep_eq, hvd]
    simp
  · intro hdr d hp hne
    unfold parse_app_descriptor at hp
    split at hp
    · exact absurd hp (by simp)
    · injection hp with hp2
      rcases hne with h | h <;>
        simp [← hp2] at h ⊢ <;>
        simp [← hp2, h]

/-- Witness for c9_save_valid: a lone invalid report saves nothing with no
errors, while a lone valid report whose write fails produces the error list
with its artifact name and again saves nothing; the two outcomes differ. -/
theorem c9_save_valid_witness :
    valid_sections [(.parsed "Boot Area" 1 (some 8) (.ok ⟨1, 2, 90, 0, false⟩) [9]
        : SectionReport)] = []
    ∧ save_sections_to_files
        [(.parsed "Boot Area" 1 (some 8) (.ok ⟨1, 2, 90, 0, false⟩) [9])] "p"
        (fun _ => false) = ⟨0, [], []⟩
    ∧ save_sections_to_files
        [(.parsed "App1" 0 none (.ok ⟨4, 4, 90, 0, true⟩) [1, 2])] "p"
        (fun _ => false) = ⟨0, ["p_app1.bin"], []⟩ := by
  refine ⟨by decide, ?_, ?_⟩
  · exact (c9_save_valid
      [(.parsed "Boot Area" 1 (some 8) (.ok ⟨1, 2, 90, 0, false⟩) [9])] "p"
      (fun _ => false)).2.2.1 (by decide)
  · rw [(c9_save_valid
      [(.parsed "App1" 0 none (.ok ⟨4, 4, 90, 0, true⟩) [1, 2])] "p"
      (fun _ => false)).1]
    decide

lemma rwt_zero (tr : List (Option Nat)) : read_with_timeout tr 0 = (none, tr) := by
  cases tr with
  | nil => rfl
  | cons o tl => cases o <;> rfl

lemma rwt_replicate_none : ∀ (t : Nat) (rest : List (Option Nat)),
    read_with_timeout (List.replicate t none ++ rest) t = (none, rest) := by
  intro t
  induction t with
  | zero =>
    intro rest
    rw [List.replicate_zero, List.nil_append]
    exact rwt_zero rest
  | succ k ih =>
    intro rest
    show read_with_timeout (none :: (List.replicate k none ++ rest)) (k + 1) = _
    rw [show read_with_timeout (none :: (List.replicate k none ++ rest)) (k + 1)
      = read_with_timeout (List.replicate k none ++ rest) k from rfl]
    exact ih rest

lemma rwt_first_byte : ∀ (j t : Nat), j < t → ∀ (b : Nat) (rest : List (Option Nat)),
    read_with_timeout (List.replicate j none ++ some b :: rest) t = (some b, rest) := by
  intro j
  induction j with
  | zero =>
    intro t ht b rest
    match t, ht with
    | tt + 1, _ => rfl
  | succ k ih =>
    intro t ht b rest
    match t, ht with
    | tt + 1, ht =>
      show read_with_timeout (none :: (List.replicate k none ++ some b :: rest)) (tt + 1) = _
      rw [show read_with_timeout (none :: (List.replicate k none ++ some b :: rest)) (tt + 1)
        = read_with_timeout (List.replicate k none ++ some b :: rest) tt from rfl]
      exact ih tt (by omega) b rest

lemma scan_true_iff : ∀ (f : Nat) (b : Nat) (tr : List (Option Nat)),
    (scan_for_crc_request b tr f).1 = true ↔
      (b = CHAR_C ∨ ∃ i, i < f ∧ tr.get? i = some (some CHAR_C)) := by
  intro f
  induction f with
  | zero =>
    intro b tr
    have h1 : scan_for_crc_request b tr 0
        = if b = CHAR_C then (true, tr) else (false, tr) := by
      cases tr with
      | nil => rfl
      | cons o tl => cases o <;> rfl
    rw [h1]
    by_cases hb : b = CHAR_C
    · simp [hb]
    · simp [hb]
  | succ k ih =>
    intro b tr
    by_cases hb : b = CHAR_C
    · have h1 : scan_for_crc_request b tr (k + 1) = (true, tr) := by
        cases tr with
        | nil => show (if b = CHAR_C then _ else _) = _; rw [if_pos hb]
        | cons o tl =>
          cases o with
          | none => show (if b = CHAR_C then _ else _) = _; rw [if_pos hb]
          | some nb => show (if b = CHAR_C then _ else _) = _; rw [if_pos hb]
      rw [h1]
      simp [hb]
    · cases tr with
      | nil =>
        have h1 : scan_for_crc_request b [] (k + 1) = scan_for_crc_request b [] k := by
          rw [show scan_for_crc_request b [] (k + 1)
            = (if b = CHAR_C then ((true : Bool), ([] : List (Option Nat)))
               else scan_for_crc_request b [] k) from rfl, if_neg hb]
        rw [h1, ih b []]
        simp [hb]
      | cons o tl =>
        cases o with
        | none =>
          have h1 : scan_for_crc_request b (none :: tl) (k + 1)
              = scan_for_crc_request b tl k := by
            rw [show scan_for_crc_request b (none :: tl) (k + 1)
              = (if b = CHAR_C then ((true : Bool), none :: tl)
                 else scan_for_crc_request b tl k) from rfl, if_neg hb]
          rw [h1, ih b tl]
          constructor
          · rintro (h | ⟨i, hi, hget⟩)
            · exact Or.inl h
            · exact Or.inr ⟨i + 1, by omega, hget⟩
          · rintro (h | ⟨i, hi, hget⟩)
            · exact Or.inl h
            · match i, hget with
              | ii + 1, hget => exact Or.inr ⟨ii, by omega, hget⟩
        | some nb =>
          have h1 : scan_for_crc_request b (some nb :: tl) (k + 1)
              = scan_for_crc_request nb tl k := by
            rw [show scan_for_crc_request b (some nb :: tl) (k + 1)
              = (if b = CHAR_C then ((true : Bool), some nb :: tl)
                 else scan_for_crc_request nb tl k) from rfl, if_neg hb]
          rw [h1, ih nb tl]
          constructor
          · rintro (h | ⟨i, hi, hget⟩)
            · exact Or.inr ⟨0, by omega, by rw [h]; rfl⟩
            · exact Or.inr ⟨i + 1, by omega, hget⟩
          · rintro (h | ⟨i, hi, hget⟩)
            · exact absurd h hb
            · match i, hget with
              | 0, hget =>
                have hnb : nb = CHAR_C := by
                  simp at hget
                  exact hget
                exact Or.inl hnb
              | ii + 1, hget => exact Or.inr ⟨ii, by omega, hget⟩

lemma wait_none (it : Nat) (rest : List (Option Nat)) :
    wait_for_receiver_crc_request (List.replicate it none ++ rest) it = (false, rest) := by
  unfold wait_for_receiver_crc_request
  rw [rwt_replicate_none]

lemma wait_first_byte (it j : Nat) (hj : j < it) (b : Nat) (tr2 : List (Option Nat)) :
    wait_for_receiver_crc_request (List.replicate j none ++ some b :: tr2) it =
      scan_for_crc_request b tr2 it := by
  unfold wait_for_receiver_crc_request
  rw [rwt_first_byte j it hj b tr2]

lemma xmodem_of_wait_false (it pt mr : Nat) (data : List Nat) (s : Ser)
    (tr1 : List (Option Nat))
    (h : wait_for_receiver_crc_request s.trace it = (false, tr1)) :
    xmodem_crc_send it pt mr data s = (.noHandshake, ⟨tr1, s.written⟩) := by
  unfold xmodem_crc_send
  rw [h]

/-- C1, amended: the handshake reads bytes looking for the letter C.  If no
byte at all arrives within initial_timeout the engine reports the missing
handshake having written zero bytes.  However, the arrival of the first
byte opens a fresh window of initial_timeout (the source computes the scan
deadline only after the first byte is received, so the overall deadline is
not a single initial_timeout); within that scan window the handshake
succeeds exactly when the first byte is C or a C arrives within
initial_timeout further polls, and noise bytes inside the scan window are
discarded without extending it.  Whenever the handshake fails, the outcome
is the no-handshake failure with zero bytes written. -/
theorem c1_handshake (it pt mr : Nat) (data : List Nat) :
    (∀ w rest, xmodem_crc_send it pt mr data ⟨List.replicate it none ++ rest, w⟩
        = (.noHandshake, ⟨rest, w⟩))
    ∧ (∀ j b tr2, j < it →
        ((wait_for_receiver_crc_request
            (List.replicate j none ++ some b :: tr2) it).1 = true
          ↔ (b = CHAR_C ∨ ∃ i, i < it ∧ tr2.get? i = some (some CHAR_C))))
    ∧ (∀ s tr1, wait_for_receiver_crc_request s.trace it = (false, tr1) →
        xmodem_crc_send it pt mr data s = (.noHandshake, ⟨tr1, s.written⟩)) := by
  refine ⟨?_, ?_, ?_⟩
  · intro w rest
    exact xmodem_of_wait_false it pt mr data ⟨List.replicate it none ++ rest, w⟩ rest
      (wait_none it rest)
  · intro j b tr2 hj
    rw [wait_first_byte it j hj b tr2]
    exact scan_true_iff it b tr2
  · intro s tr1 h
    exact xmodem_of_wait_false it pt mr data s tr1 h

/-- Witness for c1_handshake: silence during a 2-poll window fails the
handshake with nothing written, and with timeout 3 a noise byte at the
third poll followed by C one poll later is accepted. -/
theorem c1_handshake_witness :
    xmodem_crc_send 2 1 0 [1] ⟨List.replicate 2 none ++ [], []⟩
        = (.noHandshake, ⟨[], []⟩)
    ∧ (2 < 3 ∧
        ((wait_for_receiver_crc_request
            (List.replicate 2 none ++ some 0x11 :: [some 0x43]) 3).1 = true
          ↔ (0x11 = CHAR_C ∨ ∃ i, i < 3 ∧ [some 0x43].get? i = some (some CHAR_C)))) :=
  ⟨(c1_handshake 2 1 0 [1]).1 [] [],
    ⟨by omega, (c1_handshake 3 1 0 [1]).2.1 2 0x11 [some 0x43] (by omega)⟩⟩

/-- Counterexample for C1 as stated: with initial_timeout 3, the trace has
no C among its first 3 polls (the C only arrives at the fourth poll, after
a noise byte), yet the handshake succeeds, because the first received byte
reopens the deadline window. -/
theorem c1_counterexample :
    (wait_for_receiver_crc_request [none, none, some 0x11, some 0x43] 3).1 = true
    ∧ (∀ i, i < 3 → [none, none, some 0x11, some 0x43].get? i ≠ some (some 0x43)) := by
  decide

lemma await_first_some (t : Nat) : ∀ (j w : Nat), j < w →
    ∀ (b : Nat) (rest : List (Option Nat)),
    await_reply t (List.replicate j none ++ some b :: rest) w =
      (if b = ACK then (.acked, rest)
       else if b = NAK then (.failed, rest)
       else if b = CAN then (.cancelled, rest)
       else await_reply t rest t) := by
  intro j
  induction j with
  | zero =>
    intro w hw b rest
    match w, hw with
    | ww + 1, _ => rfl
  | succ k ih =>
    intro w hw b rest
    match w, hw with
    | ww + 1, hw =>
      show await_reply t (none :: (List.replicate k none ++ some b :: rest)) (ww + 1) = _
      rw [show await_reply t (none :: (List.replicate k none ++ some b :: rest)) (ww + 1)
        = await_reply t (List.replicate k none ++ some b :: rest) ww from rfl]
      exact ih ww (by omega) b rest

lemma await_timeout (t : Nat) : ∀ (w : Nat) (rest : List (Option Nat)),
    await_reply t (List.replicate w none ++ rest) w = (.failed, rest) := by
  intro w
  induction w with
  | zero =>
    intro rest
    rw [List.replicate_zero, List.nil_append]
    cases rest with
    | nil => rfl
    | cons o tl => cases o <;> rfl
  | succ k ih =>
    intro rest
    show await_reply t (none :: (List.replicate k none ++ rest)) (k + 1) = _
    rw [show await_reply t (none :: (List.replicate k none ++ rest)) (k + 1)
      = await_reply t (List.replicate k none ++ rest) k from rfl]
    exact ih rest

lemma send_block_ack (pt block_no : Nat) (chunk : List Nat) (j : Nat) (hj : j < pt)
    (rest : List (Option Nat)) (w : List Nat) :
    send_block pt block_no chunk ⟨List.replicate j none ++ some ACK :: rest, w⟩ =
      (.acked, ⟨rest, w ++ mkPacket block_no chunk⟩) := by
  unfold send_block
  rw [await_first_some pt j pt hj ACK rest]
  rfl

lemma send_block_nak (pt block_no : Nat) (chunk : List Nat) (j : Nat) (hj : j < pt)
    (rest : List (Option Nat)) (w : List Nat) :
    send_block pt block_no chunk ⟨List.replicate j none ++ some NAK :: rest, w⟩ =
      (.failed, ⟨rest, w ++ mkPacket block_no chunk⟩) := by
  unfold send_block
  rw [await_first_some pt j pt hj NAK rest]
  rfl

lemma send_block_can (pt block_no : Nat) (chunk : List Nat) (j : Nat) (hj : j < pt)
    (rest : List (Option Nat)) (w : List Nat) :
    send_block pt block_no chunk ⟨List.replicate j none ++ some CAN :: rest, w⟩ =
      (.cancelled, ⟨rest, w ++ mkPacket block_no chunk⟩) := by
  unfold send_block
  rw [await_first_some pt j pt hj CAN rest]
  rfl

lemma send_block_timeout (pt block_no : Nat) (chunk : List Nat)
    (rest : List (Option Nat)) (w : List Nat) :
    send_block pt block_no chunk ⟨List.replicate pt none ++ rest, w⟩ =
      (.failed, ⟨rest, w ++ mkPacket block_no chunk⟩) := by
  unfold send_block
  rw [await_timeout pt pt rest]

lemma send_block_ack_head (pt block_no : Nat) (chunk : List Nat) (hpt : 1 ≤ pt)
    (rest : List (Option Nat)) (w : List Nat) :
    send_block pt block_no chunk ⟨some ACK :: rest, w⟩ =
      (.acked, ⟨rest, w ++ mkPacket block_no chunk⟩) := by
  have h := send_block_ack pt block_no chunk 0 (by omega) rest w
  rwa [List.replicate_zero, List.nil_append] at h

lemma send_block_nak_head (pt block_no : Nat) (chunk : List Nat) (hpt : 1 ≤ pt)
    (rest : List (Option Nat)) (w : List Nat) :
    send_block pt block_no chunk ⟨some NAK :: rest, w⟩ =
      (.failed, ⟨rest, w ++ mkPacket block_no chunk⟩) := by
  have h := send_block_nak pt block_no chunk 0 (by omega) rest w
  rwa [List.replicate_zero, List.nil_append] at h

lemma send_block_can_head (pt block_no : Nat) (chunk : List Nat) (hpt : 1 ≤ pt)
    (rest : List (Option Nat)) (w : List Nat) :
    send_block pt block_no chunk ⟨some CAN :: rest, w⟩ =
      (.cancelled, ⟨rest, w ++ mkPacket block_no chunk⟩) := by
  have h := send_block_can pt block_no chunk 0 (by omega) rest w
  rwa [List.replicate_zero, List.nil_append] at h

lemma try_send_zero (pt block_no : Nat) (chunk : List Nat) (s : Ser) :
    try_send pt block_no chunk 0 s =
      try_resolve (send_block pt block_no chunk s) (fun s2 => (.exceeded, s2)) := rfl

lemma try_send_succ (pt block_no : Nat) (chunk : List Nat) (m : Nat) (s : Ser) :
    try_send pt block_no chunk (m + 1) s =
      try_resolve (send_block pt block_no chunk s)
        (fun s2 => try_send pt block_no chunk m s2) := rfl

lemma try_send_of_acked (pt block_no : Nat) (chunk : List Nat) (n : Nat) (s : Ser)
    (s2 : Ser) (h : send_block pt block_no chunk s = (.acked, s2)) :
    try_send pt block_no chunk n s = (.ok, s2) := by
  cases n with
  | zero => rw [try_send_zero, h]; rfl
  | succ m => rw [try_send_succ, h]; rfl

lemma try_send_of_cancelled (pt block_no : Nat) (chunk : List Nat) (n : Nat) (s : Ser)
    (s2 : Ser) (h : send_block pt block_no chunk s = (.cancelled, s2)) :
    try_send pt block_no chunk n s = (.canceled, s2) := by
  cases n with
  | zero => rw [try_send_zero, h]; rfl
  | succ m => rw [try_send_succ, h]; rfl

lemma try_send_of_failed_zero (pt block_no : Nat) (chunk : List Nat) (s : Ser)
    (s2 : Ser) (h : send_block pt block_no chunk s = (.failed, s2)) :
    try_send pt block_no chunk 0 s = (.exceeded, s2) := by
  rw [try_send_zero, h]
  rfl

lemma try_send_of_failed_succ (pt block_no : Nat) (chunk : List Nat) (m : Nat) (s : Ser)
    (s2 : Ser) (h : send_block pt block_no chunk s = (.failed, s2)) :
    try_send pt block_no chunk (m + 1) s = try_send pt block_no chunk m s2 := by
  rw [try_send_succ, h]
  rfl

lemma joinN_one (p : List Nat) : joinN 1 p = p := by
  show p ++ joinN 0 p = p
  rw [show joinN 0 p = [] from rfl, List.append_nil]

lemma try_send_naks_then_ack (pt block_no : Nat) (chunk : List Nat) (hpt : 1 ≤ pt) :
    ∀ (n : Nat) (w : List Nat) (rest : List (Option Nat)),
    try_send pt block_no chunk n ⟨nakReplies n ++ some ACK :: rest, w⟩ =
      (.ok, ⟨rest, w ++ joinN (n + 1) (mkPacket block_no chunk)⟩) := by
  intro n
  induction n with
  | zero =>
    intro w rest
    rw [show (⟨nakReplies 0 ++ some ACK :: rest, w⟩ : Ser) = ⟨some ACK :: rest, w⟩
      from rfl]
    rw [try_send_of_acked pt block_no chunk 0 _ _
      (send_block_ack_head pt block_no chunk hpt rest w), joinN_one]
  | succ k ih =>
    intro w rest
    rw [show (⟨nakReplies (k + 1) ++ some ACK :: rest, w⟩ : Ser)
      = ⟨some NAK :: (nakReplies k ++ some ACK :: rest), w⟩ from rfl]
    rw [try_send_of_failed_succ pt block_no chunk k _ _
      (send_block_nak_head pt block_no chunk hpt _ w), ih]
    rw [show joinN (k + 1 + 1) (mkPacket block_no chunk)
      = mkPacket block_no chunk ++ joinN (k + 1) (mkPacket block_no chunk) from rfl,
      List.append_assoc]

lemma try_send_all_naks (pt block_no : Nat) (chunk : List Nat) (hpt : 1 ≤ pt) :
    ∀ (n : Nat) (w : List Nat) (rest : List (Option Nat)),
    try_send pt block_no chunk n ⟨nakReplies (n + 1) ++ rest, w⟩ =
      (.exceeded, ⟨rest, w ++ joinN (n + 1) (mkPacket block_no chunk)⟩) := by
  intro n
  induction n with
  | zero =>
    intro w rest
    rw [show (⟨nakReplies 1 ++ rest, w⟩ : Ser) = ⟨some NAK :: rest, w⟩ from rfl]
    rw [try_send_of_failed_zero pt block_no chunk _ _
      (send_block_nak_head pt block_no chunk hpt rest w), joinN_one]
  | succ k ih =>
    intro w rest
    rw [show (⟨nakReplies (k + 2) ++ rest, w⟩ : Ser)
      = ⟨some NAK :: (nakReplies (k + 1) ++ rest), w⟩ from rfl]
    rw [try_send_of_failed_succ pt block_no chunk k _ _
      (send_block_nak_head pt block_no chunk hpt _ w), ih]
    rw [show joinN (k + 1 + 1) (mkPacket block_no chunk)
      = mkPacket block_no chunk ++ joinN (k + 1) (mkPacket block_no chunk) from rfl,
      List.append_assoc]

lemma send_block_written (pt block_no : Nat) (chunk : List Nat) (s : Ser) :
    (send_block pt block_no chunk s).2.written = s.written ++ mkPacket block_no chunk := rfl

lemma try_send_write_bound (pt block_no : Nat) (chunk : List Nat) :
    ∀ (n : Nat) (s : Ser), ∃ j, 1 ≤ j ∧ j ≤ n + 1 ∧
    (try_send pt block_no chunk n s).2.written
      = s.written ++ joinN j (mkPacket block_no chunk) := by
  intro n
  induction n with
  | zero =>
    intro s
    refine ⟨1, by omega, by omega, ?_⟩
    rw [joinN_one, try_send_zero]
    rcases h : send_block pt block_no chunk s with ⟨r, s2⟩
    have hw : s2.written = s.written ++ mkPacket block_no chunk := by
      have hsw := send_block_written pt block_no chunk s
      rw [h] at hsw
      exact hsw
    cases r <;> exact hw
  | succ k ih =>
    intro s
    rcases h : send_block pt block_no chunk s with ⟨r, s2⟩
    have hw : s2.written = s.written ++ mkPacket block_no chunk := by
      have := send_block_written pt block_no chunk s
      rw [h] at this
      exact this
    cases r with
    | acked =>
      refine ⟨1, by omega, by omega, ?_⟩
      rw [try_send_of_acked pt block_no chunk (k + 1) s s2 h, joinN_one]
      exact hw
    | cancelled =>
      refine ⟨1, by omega, by omega, ?_⟩
      rw [try_send_of_cancelled pt block_no chunk (k + 1) s s2 h, joinN_one]
      exact hw
    | failed =>
      rcases ih s2 with ⟨j, hj1, hj2, hjw⟩
      refine ⟨j + 1, by omega, by omega, ?_⟩
      rw [try_send_of_failed_succ pt block_no chunk k s s2 h, hjw, hw,
        List.append_assoc]
      rw [show joinN (j + 1) (mkPacket block_no chunk)
        = mkPacket block_no chunk ++ joinN j (mkPacket block_no chunk) from rfl]

lemma send_loop_cons (pt mr fuel : Nat) (d : Nat) (ds : List Nat) (block_no : Nat)
    (s : Ser) :
    send_loop pt mr (fuel + 1) (d :: ds) block_no s =
      loop_resolve (try_send pt block_no ((d :: ds).take BLOCK_SIZE) mr s) block_no
        (fun s2 =>
          send_loop pt mr fuel ((d :: ds).drop BLOCK_SIZE) ((block_no + 1) % 256) s2)
    := rfl

/-- C3: a NAK and a reply timeout each count as a failed attempt; the retry
loop resends the identical packet (same block number, same payload) after
each failure; a block NAKed exactly max_retries times and then ACKed is
accepted; a block NAKed max_retries + 1 times makes the engine abort with
the retries-exceeded outcome carrying that block number; and the attempt
count for one block never exceeds max_retries + 1: any run of the retry
loop puts between 1 and max_retries + 1 copies of the one identical packet
on the wire. -/
theorem c3_retries (pt mr block_no : Nat) (chunk : List Nat) (hpt : 1 ≤ pt) :
    (∀ w rest, send_block pt block_no chunk ⟨List.replicate pt none ++ rest, w⟩
        = (.failed, ⟨rest, w ++ mkPacket block_no chunk⟩))
    ∧ (∀ w rest, send_block pt block_no chunk ⟨some NAK :: rest, w⟩
        = (.failed, ⟨rest, w ++ mkPacket block_no chunk⟩))
    ∧ (∀ w rest, try_send pt block_no chunk mr ⟨nakReplies mr ++ some ACK :: rest, w⟩
        = (.ok, ⟨rest, w ++ joinN (mr + 1) (mkPacket block_no chunk)⟩))
    ∧ (∀ w rest, try_send pt block_no chunk mr ⟨nakReplies (mr + 1) ++ rest, w⟩
        = (.exceeded, ⟨rest, w ++ joinN (mr + 1) (mkPacket block_no chunk)⟩))
    ∧ (∀ fuel d ds w rest, (d :: ds).take BLOCK_SIZE = chunk →
        send_loop pt mr (fuel + 1) (d :: ds) block_no ⟨nakReplies (mr + 1) ++ rest, w⟩
          = (some (.retriesExceeded block_no),
              ⟨rest, w ++ joinN (mr + 1) (mkPacket block_no chunk)⟩))
    ∧ (∀ n s, ∃ j, 1 ≤ j ∧ j ≤ n + 1 ∧
        (try_send pt block_no chunk n s).2.written
          = s.written ++ joinN j (mkPacket block_no chunk)) := by
  refine ⟨?_, ?_, try_send_naks_then_ack pt block_no chunk hpt mr,
    try_send_all_naks pt block_no chunk hpt mr, ?_,
    try_send_write_bound pt block_no chunk⟩
  · intro w rest
    exact send_block_timeout pt block_no chunk rest w
  · intro w rest
    exact send_block_nak_head pt block_no chunk hpt rest w
  · intro fuel d ds w rest hchunk
    rw [send_loop_cons, hchunk, try_send_all_naks pt block_no chunk hpt mr w rest]
    rfl

/-- Witness for c3_retries with per-try window 1, two allowed retries,
block 1 and payload [5]: two NAKs then an ACK succeed after three identical
sends; three NAKs exhaust the retries. -/
theorem c3_retries_witness :
    (1 : Nat) ≤ 1
    ∧ try_send 1 1 [5] 2 ⟨nakReplies 2 ++ some ACK :: [], []⟩
        = (.ok, ⟨[], [] ++ joinN (2 + 1) (mkPacket 1 [5])⟩)
    ∧ try_send 1 1 [5] 2 ⟨nakReplies (2 + 1) ++ [], []⟩
        = (.exceeded, ⟨[], [] ++ joinN (2 + 1) (mkPacket 1 [5])⟩) :=
  ⟨le_refl 1, (c3_retries 1 2 1 [5] (le_refl 1)).2.2.1 [] [],
    (c3_retries 1 2 1 [5] (le_refl 1)).2.2.2.1 [] []⟩

lemma rwt_some_head (t : Nat) (ht : 1 ≤ t) (b : Nat) (tr : List (Option Nat)) :
    read_with_timeout (some b :: tr) t = (some b, tr) := by
  match t, ht with
  | tt + 1, _ => rfl

lemma scan_char_c (tr : List (Option Nat)) (f : Nat) :
    scan_for_crc_request CHAR_C tr f = (true, tr) := by
  cases f with
  | zero => cases tr with
    | nil => rfl
    | cons o tl => cases o <;> rfl
  | succ k => cases tr with
    | nil => rfl
    | cons o tl => cases o <;> rfl

lemma wait_char_head (it : Nat) (hit : 1 ≤ it) (tr : List (Option Nat)) :
    wait_for_receiver_crc_request (some CHAR_C :: tr) it = (true, tr) := by
  unfold wait_for_receiver_crc_request
  rw [rwt_some_head it hit CHAR_C tr]
  show scan_for_crc_request CHAR_C tr it = (true, tr)
  exact scan_char_c tr it

lemma xmodem_of_wait_true (it pt mr : Nat) (data : List Nat) (s : Ser)
    (tr1 : List (Option Nat))
    (h : wait_for_receiver_crc_request s.trace it = (true, tr1)) :
    xmodem_crc_send it pt mr data s =
      finish_resolve (send_loop pt mr data.length data 1 ⟨tr1, s.written⟩) pt := by
  unfold xmodem_crc_send
  rw [h]

lemma send_eot_can (pt j : Nat) (hj : j < pt) (w : List Nat)
    (rest : List (Option Nat)) :
    send_eot pt ⟨List.replicate j none ++ some CAN :: rest, w⟩ =
      (.cancelled, ⟨rest, w ++ [EOT]⟩) := by
  unfold send_eot
  dsimp only
  rw [rwt_first_byte j pt hj CAN rest]
  rfl

lemma send_eot_nak_can (pt j : Nat) (hj : j < pt) (hpt : 1 ≤ pt) (w : List Nat)
    (rest : List (Option Nat)) :
    send_eot pt ⟨some NAK :: (List.replicate j none ++ some CAN :: rest), w⟩ =
      (.eotNotAcked, ⟨rest, w ++ [EOT] ++ [EOT]⟩) := by
  unfold send_eot
  dsimp only
  rw [rwt_some_head pt hpt NAK _]
  rw [show eot_reply1 pt (some NAK, List.replicate j none ++ some CAN :: rest)
      (w ++ [EOT])
    = eot_reply2 (read_with_timeout (List.replicate j none ++ some CAN :: rest) pt)
      (w ++ [EOT] ++ [EOT]) from rfl]
  rw [rwt_first_byte j pt hj CAN rest]
  rfl

lemma send_eot_ack (pt j : Nat) (hj : j < pt) (w : List Nat)
    (rest : List (Option Nat)) :
    send_eot pt ⟨List.replicate j none ++ some ACK :: rest, w⟩ =
      (.done, ⟨rest, w ++ [EOT]⟩) := by
  unfold send_eot
  dsimp only
  rw [rwt_first_byte j pt hj ACK rest]
  rfl

/-- C2, amended: a CAN received while awaiting a block reply aborts the run
as cancelled with no further bytes sent (the writes end at the packet just
sent), and a CAN as the reply to the first EOT likewise yields cancelled;
but a CAN received as the reply to the second EOT, sent after a NAK to the
first, is treated like any non-ACK byte and yields the missing-final-ACK
failure, not cancelled.  The cancelled outcome is distinguishable from the
done outcome and from every failure variant. -/
theorem c2_cancel (it pt mr : Nat) (hit : 1 ≤ it) :
    (∀ fuel d ds block_no w j rest, j < pt →
      send_loop pt mr (fuel + 1) (d :: ds) block_no
          ⟨List.replicate j none ++ some CAN :: rest, w⟩
        = (some .cancelled,
            ⟨rest, w ++ mkPacket block_no ((d :: ds).take BLOCK_SIZE)⟩))
    ∧ (∀ j w rest, j < pt →
      send_eot pt ⟨List.replicate j none ++ some CAN :: rest, w⟩
        = (.cancelled, ⟨rest, w ++ [EOT]⟩))
    ∧ (∀ j w rest, j < pt → 1 ≤ pt →
      send_eot pt ⟨some NAK :: (List.replicate j none ++ some CAN :: rest), w⟩
        = (.eotNotAcked, ⟨rest, w ++ [EOT] ++ [EOT]⟩))
    ∧ (∀ d ds w j rest, j < pt →
      xmodem_crc_send it pt mr (d :: ds)
          ⟨some CHAR_C :: (List.replicate j none ++ some CAN :: rest), w⟩
        = (.cancelled, ⟨rest, w ++ mkPacket 1 ((d :: ds).take BLOCK_SIZE)⟩))
    ∧ (Outcome.cancelled ≠ .done ∧ Outcome.cancelled ≠ .noHandshake
        ∧ Outcome.cancelled ≠ .eotNotAcked
        ∧ ∀ n, Outcome.cancelled ≠ .retriesExceeded n) := by
  have hloop : ∀ fuel d ds block_no w j rest, j < pt →
      send_loop pt mr (fuel + 1) (d :: ds) block_no
          ⟨List.replicate j none ++ some CAN :: rest, w⟩
        = (some .cancelled,
            ⟨rest, w ++ mkPacket block_no ((d :: ds).take BLOCK_SIZE)⟩) := by
    intro fuel d ds block_no w j rest hj
    rw [send_loop_cons, try_send_of_cancelled pt block_no _ mr _ _
      (send_block_can pt block_no _ j hj rest w)]
    rfl
  refine ⟨hloop, ?_, ?_, ?_, by decide, by decide, by decide,
    fun n h => by cases h⟩
  · intro j w rest hj
    exact send_eot_can pt j hj w rest
  · intro j w rest hj hpt
    exact send_eot_nak_can pt j hj hpt w rest
  · intro d ds w j rest hj
    rw [xmodem_of_wait_true it pt mr (d :: ds) _ _ (wait_char_head it hit _)]
    show finish_resolve
      (send_loop pt mr (ds.length + 1) (d :: ds) 1
        ⟨List.replicate j none ++ some CAN :: rest, w⟩) pt = _
    rw [hloop ds.length d ds 1 w j rest hj]
    rfl

/-- Witness for c2_cancel: with both timeouts 1 and no retries, a CAN as
the reply to the first data block of [7] cancels the run right after that
one packet. -/
theorem c2_cancel_witness :
    (1 : Nat) ≤ 1 ∧ (0 : Nat) < 1
    ∧ xmodem_crc_send 1 1 0 [7]
        ⟨some CHAR_C :: (List.replicate 0 none ++ some CAN :: []), []⟩
      = (.cancelled, ⟨[], [] ++ mkPacket 1 ([7].take BLOCK_SIZE)⟩) :=
  ⟨le_refl 1, Nat.zero_lt_one,
    (c2_cancel 1 1 0 (le_refl 1)).2.2.2.1 7 [] [] 0 [] Nat.zero_lt_one⟩

/-- Counterexample for C2 as stated: after the handshake and an empty
payload, the receiver NAKs the first EOT and CANs the second; the engine
consumes the CAN (the trace is exhausted) but reports the missing final
ACK, not the cancelled outcome. -/
theorem c2_counterexample :
    xmodem_crc_send 1 1 0 [] ⟨[some CHAR_C, some NAK, some CAN], []⟩
        = (.eotNotAcked, ⟨[], [EOT, EOT]⟩)
    ∧ (xmodem_crc_send 1 1 0 [] ⟨[some CHAR_C, some NAK, some CAN], []⟩).1
        ≠ .cancelled := by
  decide

/-- C10: with empty input, after a successful handshake the engine sends no
data blocks and proceeds directly to the EOT exchange; and the progress
percentage is guarded so a zero total length reports 100 instead of
dividing by zero. -/
theorem c10_empty_input (it pt mr : Nat) :
    (∀ s tr1, wait_for_receiver_crc_request s.trace it = (true, tr1) →
      xmodem_crc_send it pt mr [] s = send_eot pt ⟨tr1, s.written⟩)
    ∧ (∀ sent, progress_pct sent 0 = 100) := by
  constructor
  · intro s tr1 h
    rw [xmodem_of_wait_true it pt mr [] s tr1 h]
    rfl
  · intro sent
    unfold progress_pct
    rw [if_pos rfl]

/-- Witness for c10_empty_input: a handshake followed by one ACK; the run on
empty input is exactly the EOT exchange on the remaining trace. -/
theorem c10_empty_input_witness :
    wait_for_receiver_crc_request [some CHAR_C, some ACK] 1 = (true, [some ACK])
    ∧ xmodem_crc_send 1 1 0 [] ⟨[some CHAR_C, some ACK], []⟩
        = send_eot 1 ⟨[some ACK], []⟩
    ∧ progress_pct 0 0 = 100 :=
  ⟨by decide,
    (c10_empty_input 1 1 0).1 ⟨[some CHAR_C, some ACK], []⟩ [some ACK] (by decide),
    (c10_empty_input 1 1 0).2 0⟩

lemma chunksAux_nil : ∀ f, chunksAux f [] = [] := by
  intro f
  cases f <;> rfl

lemma chunksAux_congr : ∀ (f1 f2 : Nat) (data : List Nat),
    data.length ≤ f1 → data.length ≤ f2 → chunksAux f1 data = chunksAux f2 data := by
  intro f1
  induction f1 with
  | zero =>
    intro f2 data h1 h2
    have hd : data = [] := List.eq_nil_of_length_eq_zero (by omega)
    subst hd
    rw [chunksAux_nil, chunksAux_nil]
  | succ k ih =>
    intro f2 data h1 h2
    cases data with
    | nil => rw [chunksAux_nil, chunksAux_nil]
    | cons d ds =>
      match f2, h2 with
      | f2p + 1, h2 =>
        show (d :: ds).take BLOCK_SIZE :: chunksAux k ((d :: ds).drop BLOCK_SIZE)
          = (d :: ds).take BLOCK_SIZE :: chunksAux f2p ((d :: ds).drop BLOCK_SIZE)
        congr 1
        have hlen : ((d :: ds).drop BLOCK_SIZE).length = ds.length + 1 - BLOCK_SIZE := by
          rw [List.length_drop, List.length_cons]
        have hl1 : (d :: ds).length = ds.length + 1 := List.length_cons d ds
        apply ih
        · rw [hlen]
          rw [hl1] at h1
          simp only [BLOCK_SIZE]
          omega
        · rw [hlen]
          rw [hl1] at h2
          simp only [BLOCK_SIZE]
          omega

lemma chunksOf_cons (d : Nat) (ds : List Nat) :
    chunksOf (d :: ds) =
      (d :: ds).take BLOCK_SIZE :: chunksOf ((d :: ds).drop BLOCK_SIZE) := by
  show chunksAux (d :: ds).length (d :: ds) = _
  rw [show (d :: ds).length = ds.length + 1 from List.length_cons d ds]
  show (d :: ds).take BLOCK_SIZE :: chunksAux ds.length ((d :: ds).drop BLOCK_SIZE) = _
  congr 1
  apply chunksAux_congr
  · rw [List.length_drop, List.length_cons]
    show ds.length + 1 - BLOCK_SIZE ≤ ds.length
    unfold BLOCK_SIZE
    omega
  · exact le_refl _

lemma allAcks_succ (n : Nat) (rest : List (Option Nat)) :
    allAcks (n + 1) ++ rest = some ACK :: (allAcks n ++ rest) := rfl

lemma send_loop_allAcks (pt mr : Nat) (hpt : 1 ≤ pt) :
    ∀ (fuel : Nat) (data : List Nat) (block_no : Nat) (w : List Nat)
      (rest : List (Option Nat)), data.length ≤ fuel →
    send_loop pt mr fuel data block_no ⟨allAcks (chunksOf data).length ++ rest, w⟩ =
      (none, ⟨rest, w ++ joinAll (packetsOf block_no (chunksOf data))⟩) := by
  intro fuel
  induction fuel with
  | zero =>
    intro data block_no w rest h
    have hd : data = [] := List.eq_nil_of_length_eq_zero (by omega)
    subst hd
    show ((none : Option Outcome), (⟨allAcks (chunksOf []).length ++ rest, w⟩ : Ser)) = _
    rw [show chunksOf [] = [] from rfl]
    show ((none : Option Outcome), (⟨rest, w⟩ : Ser)) = _
    rw [show joinAll (packetsOf block_no []) = [] from rfl, List.append_nil]
  | succ k ih =>
    intro data block_no w rest h
    cases data with
    | nil =>
      show ((none : Option Outcome), (⟨allAcks (chunksOf []).length ++ rest, w⟩ : Ser)) = _
      rw [show chunksOf [] = [] from rfl]
      show ((none : Option Outcome), (⟨rest, w⟩ : Ser)) = _
      rw [show joinAll (packetsOf block_no []) = [] from rfl, List.append_nil]
    | cons d ds =>
      rw [chunksOf_cons, List.length_cons, send_loop_cons]
      rw [show (⟨allAcks ((chunksOf ((d :: ds).drop BLOCK_SIZE)).length + 1) ++ rest, w⟩ : Ser)
        = ⟨some ACK :: (allAcks (chunksOf ((d :: ds).drop BLOCK_SIZE)).length ++ rest), w⟩
        from rfl]
      rw [try_send_of_acked pt block_no _ mr _ _
        (send_block_ack_head pt block_no ((d :: ds).take BLOCK_SIZE) hpt _ w)]
      show send_loop pt mr k ((d :: ds).drop BLOCK_SIZE) ((block_no + 1) % 256)
          ⟨allAcks (chunksOf ((d :: ds).drop BLOCK_SIZE)).length ++ rest,
            w ++ mkPacket block_no ((d :: ds).take BLOCK_SIZE)⟩ = _
      rw [ih ((d :: ds).drop BLOCK_SIZE) ((block_no + 1) % 256)
        (w ++ mkPacket block_no ((d :: ds).take BLOCK_SIZE)) rest
        (by rw [List.length_drop, List.length_cons]
            rw [show (d :: ds).length = ds.length + 1 from List.length_cons d ds] at h
            simp only [BLOCK_SIZE]
            omega)]
      rw [show joinAll (packetsOf block_no ((d :: ds).take BLOCK_SIZE
            :: chunksOf ((d :: ds).drop BLOCK_SIZE)))
        = mkPacket block_no ((d :: ds).take BLOCK_SIZE)
            ++ joinAll (packetsOf ((block_no + 1) % 256)
                (chunksOf ((d :: ds).drop BLOCK_SIZE)))
        from rfl]
      rw [List.append_assoc]

lemma mkPacket_congr (a b : Nat) (h : a % 256 = b % 256) (c : List Nat) :
    mkPacket a c = mkPacket b c := by
  unfold mkPacket
  rw [and_255, and_255, h]

lemma packetsOf_length : ∀ (cs : List (List Nat)) (block_no : Nat),
    (packetsOf block_no cs).length = cs.length := by
  intro cs
  induction cs with
  | nil => intro block_no; rfl
  | cons c tl ih =>
    intro block_no
    show (packetsOf ((block_no + 1) % 256) tl).length + 1 = tl.length + 1
    rw [ih]

lemma packetsOf_get? : ∀ (cs : List (List Nat)) (block_no i : Nat),
    (packetsOf block_no cs).get? i =
      (cs.get? i).map (fun c => mkPacket (block_no + i) c) := by
  intro cs
  induction cs with
  | nil => intro block_no i; cases i <;> rfl
  | cons c tl ih =>
    intro block_no i
    cases i with
    | zero => rfl
    | succ ii =>
      rw [show ((c :: tl).get? (ii + 1)) = tl.get? ii from rfl]
      show (packetsOf ((block_no + 1) % 256) tl).get? ii = _
      rw [ih ((block_no + 1) % 256) ii]
      cases hg : tl.get? ii with
      | none => rfl
      | some cc =>
        show some (mkPacket ((block_no + 1) % 256 + ii) cc)
          = some (mkPacket (block_no + (ii + 1)) cc)
        congr 1
        apply mkPacket_congr
        rw [Nat.mod_add_mod]
        have harith : block_no + 1 + ii = block_no + (ii + 1) := by omega
        rw [harith]

lemma chunksOf_length_mul : ∀ (k : Nat) (data : List Nat),
    data.length = 128 * k → (chunksOf data).length = k := by
  intro k
  induction k with
  | zero =>
    intro data h
    have hd : data = [] := List.eq_nil_of_length_eq_zero (by omega)
    subst hd
    rfl
  | succ kk ih =>
    intro data h
    cases data with
    | nil =>
      exfalso
      rw [show ([] : List Nat).length = 0 from rfl] at h
      omega
    | cons d ds =>
      rw [chunksOf_cons, List.length_cons]
      congr 1
      apply ih
      rw [List.length_drop, List.length_cons]
      rw [List.length_cons] at h
      simp only [BLOCK_SIZE]
      omega

lemma chunksOf_length_rem : ∀ (k : Nat) (r : Nat) (data : List Nat),
    0 < r → r < 128 → data.length = 128 * k + r → (chunksOf data).length = k + 1 := by
  intro k
  induction k with
  | zero =>
    intro r data hr hr2 h
    cases data with
    | nil =>
      exfalso
      rw [show ([] : List Nat).length = 0 from rfl] at h
      omega
    | cons d ds =>
      rw [chunksOf_cons, List.length_cons]
      congr 1
      have hdrop : ((d :: ds).drop BLOCK_SIZE) = [] := by
        apply List.eq_nil_of_length_eq_zero
        rw [List.length_drop, List.length_cons]
        rw [List.length_cons] at h
        simp only [BLOCK_SIZE]
        omega
      rw [hdrop]
      rfl
  | succ kk ih =>
    intro r data hr hr2 h
    cases data with
    | nil =>
      exfalso
      rw [show ([] : List Nat).length = 0 from rfl] at h
      omega
    | cons d ds =>
      rw [chunksOf_cons, List.length_cons]
      congr 1
      apply ih r _ hr hr2
      rw [List.length_drop, List.length_cons]
      rw [List.length_cons] at h
      simp only [BLOCK_SIZE]
      omega

lemma chunksOf_get? : ∀ (i : Nat) (data : List Nat), i < (chunksOf data).length →
    (chunksOf data).get? i = some ((data.drop (128 * i)).take 128) := by
  intro i
  induction i with
  | zero =>
    intro data h
    cases data with
    | nil =>
      exfalso
      rw [show chunksOf [] = [] from rfl] at h
      exact Nat.not_lt_zero 0 h
    | cons d ds =>
      rw [chunksOf_cons]
      show some ((d :: ds).take BLOCK_SIZE) = _
      rw [Nat.mul_zero, List.drop_zero]
      rfl
  | succ ii ih =>
    intro data h
    cases data with
    | nil =>
      exfalso
      rw [show chunksOf [] = [] from rfl] at h
      exact Nat.not_lt_zero _ h
    | cons d ds =>
      rw [chunksOf_cons] at h ⊢
      rw [List.length_cons] at h
      show (chunksOf ((d :: ds).drop BLOCK_SIZE)).get? ii = _
      rw [ih ((d :: ds).drop BLOCK_SIZE) (by omega)]
      rw [List.drop_drop]
      have harith : BLOCK_SIZE + 128 * ii = 128 * (ii + 1) := by
        simp only [BLOCK_SIZE]
        omega
      rw [harith]

/-- C4: an input of exactly 128k bytes is sent, against an all-ACK receiver,
as exactly k data blocks whose block numbers are 1..k reduced modulo 256
(the counter wraps through 0 after 255 rather than resetting to 1), the
last block being the final 128 data bytes with no pad byte appended; an
input of 128k + r bytes with 0 < r < 128 has one extra final block whose
last 128 - r payload bytes are the pad byte 0x1A. -/
theorem c4_blocks (it pt mr : Nat) (data : List Nat) (k r : Nat)
    (hit : 1 ≤ it) (hpt : 1 ≤ pt) :
    (data.length = 128 * k →
      (chunksOf data).length = k
      ∧ (∀ w rest, xmodem_crc_send it pt mr data
            ⟨some CHAR_C :: (allAcks k ++ some ACK :: rest), w⟩
          = (.done, ⟨rest, w ++ joinAll (packetsOf 1 (chunksOf data)) ++ [EOT]⟩))
      ∧ (∀ i, i < k → ∃ p, (packetsOf 1 (chunksOf data)).get? i = some p
          ∧ p.get? 1 = some ((i + 1) % 256))
      ∧ (0 < k →
          (chunksOf data).get? (k - 1) = some (data.drop (128 * (k - 1)))
          ∧ xpad (data.drop (128 * (k - 1))) = data.drop (128 * (k - 1))))
    ∧ (data.length = 128 * k + r → 0 < r → r < 128 →
      (chunksOf data).length = k + 1
      ∧ (chunksOf data).get? k = some (data.drop (128 * k))
      ∧ xpad (data.drop (128 * k))
          = data.drop (128 * k) ++ List.replicate (128 - r) PAD_BYTE) := by
  constructor
  · intro hk
    have hlen : (chunksOf data).length = k := chunksOf_length_mul k data hk
    refine ⟨hlen, ?_, ?_, ?_⟩
    · intro w rest
      rw [xmodem_of_wait_true it pt mr data _ _ (wait_char_head it hit _)]
      rw [show allAcks k = allAcks (chunksOf data).length by rw [hlen]]
      rw [send_loop_allAcks pt mr hpt data.length data 1 w (some ACK :: rest)
        (le_refl _)]
      show send_eot pt ⟨some ACK :: rest, w ++ joinAll (packetsOf 1 (chunksOf data))⟩ = _
      have hac := send_eot_ack pt 0 (by omega)
        (w ++ joinAll (packetsOf 1 (chunksOf data))) rest
      rwa [List.replicate_zero, List.nil_append] at hac
    · intro i hi
      have hg := chunksOf_get? i data (by rw [hlen]; exact hi)
      refine ⟨mkPacket (1 + i) ((data.drop (128 * i)).take 128), ?_, ?_⟩
      · rw [packetsOf_get?, hg]
        rfl
      · show some ((1 + i) &&& 0xFF) = some ((i + 1) % 256)
        rw [and_255, Nat.add_comm 1 i]
    · intro hk0
      have hg := chunksOf_get? (k - 1) data (by rw [hlen]; omega)
      have htake : (data.drop (128 * (k - 1))).take 128 = data.drop (128 * (k - 1)) := by
        apply List.take_of_length_le
        rw [List.length_drop, hk]
        omega
      constructor
      · rw [hg, htake]
      · unfold xpad
        rw [if_neg]
        rw [List.length_drop, hk]
        simp only [BLOCK_SIZE]
        omega
  · intro hk hr hr2
    have hlen : (chunksOf data).length = k + 1 := chunksOf_length_rem k r data hr hr2 hk
    have htake : (data.drop (128 * k)).take 128 = data.drop (128 * k) := by
      apply List.take_of_length_le
      rw [List.length_drop, hk]
      omega
    have hdl : (data.drop (128 * k)).length = r := by
      rw [List.length_drop, hk]
      omega
    refine ⟨hlen, ?_, ?_⟩
    · have hg := chunksOf_get? k data (by rw [hlen]; omega)
      rw [hg, htake]
    · unfold xpad
      rw [if_pos]
      · rw [hdl]
        rfl
      · rw [hdl]
        simp only [BLOCK_SIZE]
        omega

/-- Witness for c4_blocks: 128 zero bytes form exactly one block; 130 bytes
form two blocks (the second carrying the 2-byte remainder). -/
theorem c4_blocks_witness :
    ((List.replicate 128 (0 : Nat)).length = 128 * 1
      ∧ (chunksOf (List.replicate 128 (0 : Nat))).length = 1)
    ∧ ((List.replicate 130 (3 : Nat)).length = 128 * 1 + 2
      ∧ (chunksOf (List.replicate 130 (3 : Nat))).length = 1 + 1) :=
  ⟨⟨by decide,
    ((c4_blocks 1 1 0 (List.replicate 128 0) 1 0 (le_refl 1) (le_refl 1)).1
      (by decide)).1⟩,
   ⟨by decide,
    (((c4_blocks 1 1 0 (List.replicate 130 3) 1 2 (le_refl 1) (le_refl 1)).2
      (by decide)) (by decide) (by decide)).1⟩⟩
